import Mathlib

/-!
Verification of the `obsidian-installation-manager` core library
(`src/lib/src/lib.rs`): a shallow embedding of its data model
(semantic versions, releases, assets, progress events, manager state)
and of its operations (release selection, asset matching, download
progress, zip extraction path confinement, and the
install / update / uninstall / check-for-updates orchestration),
together with theorems checking the specification's claims.

Platform-divergent effects (HTTP fetches, the per-OS ServiceController
calls in the `win`/`nix` modules, filesystem operations) are modelled
as an explicit environment `Env` supplying each fallible step's
outcome; the orchestration functions thread the manager state exactly
as the Rust methods mutate `self`, so a failure returns the state at
the point of failure.
-/

/-! ## String utilities (ASCII, as used on asset names and tags) -/

/-- Prefix test on characters lists (`needle` against the front of `hay`). -/
def startsWithChars : List Char → List Char → Bool
  | [], _ => true
  | _ :: _, [] => false
  | c :: p, d :: s => c == d && startsWithChars p s

/-- Substring containment, Rust `str::contains` on already-lowercased names. -/
def containsSub (hay pat : List Char) : Bool :=
  match hay with
  | [] => pat.isEmpty
  | _ :: rest => startsWithChars pat hay || containsSub rest pat

/-- Rust `str::to_lowercase` on the ASCII asset names the matcher sees. -/
def lowerChars (s : String) : List Char := s.data.map Char.toLower

/-- Split a character list on every occurrence of `sep` (Rust `str::split`). -/
def splitOnC (sep : Char) : List Char → List (List Char)
  | [] => [[]]
  | c :: rest =>
    let r := splitOnC sep rest
    if c == sep then [] :: r
    else
      match r with
      | h :: t => (c :: h) :: t
      | [] => [[c]]

/-- Split at the first occurrence of `sep`, returning the part before and,
when `sep` occurs, the part after. -/
def splitFirst (sep : Char) : List Char → List Char × Option (List Char)
  | [] => ([], none)
  | c :: rest =>
    if c == sep then ([], some rest)
    else
      let r := splitFirst sep rest
      (c :: r.1, r.2)

/-! ## Semantic versions (the `semver` crate's `Version` as used by the code) -/

/-- A pre-release identifier: numeric (no leading zeros) or alphanumeric. -/
inductive PreId where
  | num (n : ℕ)
  | alpha (s : List Char)
deriving DecidableEq, Repr

/-- The `semver::Version` data: major.minor.patch, pre-release identifiers, build
metadata identifiers (empty list = no build metadata). -/
structure Version where
  major : ℕ
  minor : ℕ
  patch : ℕ
  pre : List PreId
  build : List (List Char)
deriving DecidableEq, Repr

/-- ASCII lexicographic comparison of identifier characters. -/
def strCmp : List Char → List Char → Ordering
  | [], [] => .eq
  | [], _ :: _ => .lt
  | _ :: _, [] => .gt
  | c :: a, d :: b =>
    match compare c.toNat d.toNat with
    | .eq => strCmp a b
    | o => o

/-- Compare two pre-release identifiers: numeric sorts below alphanumeric,
numeric identifiers compare numerically, alphanumeric ones in ASCII order. -/
def preIdCmp : PreId → PreId → Ordering
  | .num a, .num b => compare a b
  | .num _, .alpha _ => .lt
  | .alpha _, .num _ => .gt
  | .alpha a, .alpha b => strCmp a b

/-- Lexicographic comparison of nonempty pre-release identifier lists;
a strict prefix sorts first. -/
def preIdsCmp : List PreId → List PreId → Ordering
  | [], [] => .eq
  | [], _ :: _ => .lt
  | _ :: _, [] => .gt
  | a :: as, b :: bs =>
    match preIdCmp a b with
    | .eq => preIdsCmp as bs
    | o => o

/-- The `semver` pre-release precedence: a version without pre-release
identifiers sorts above any version with them. -/
def preCmp (a b : List PreId) : Ordering :=
  match a, b with
  | [], [] => .eq
  | [], _ :: _ => .gt
  | _ :: _, [] => .lt
  | _, _ => preIdsCmp a b

/-- All-ASCII-digit test for a build identifier. -/
def allDigits (s : List Char) : Bool := s.all Char.isDigit

/-- The `semver` crate's comparison of individual build-metadata
identifiers: two all-digit identifiers compare by value (leading zeros
break ties by total length), otherwise ASCII order with digits-only
identifiers first. -/
def buildIdCmp (a b : List Char) : Ordering :=
  match allDigits a, allDigits b with
  | true, true =>
    let a0 := a.dropWhile (fun c => c == '0')
    let b0 := b.dropWhile (fun c => c == '0')
    match compare a0.length b0.length with
    | .eq =>
      match strCmp a0 b0 with
      | .eq => compare a.length b.length
      | o => o
    | o => o
  | true, false => .lt
  | false, true => .gt
  | false, false => strCmp a b

/-- Identifier-wise comparison of build-metadata lists; fewer sorts first. -/
def buildIdsCmp : List (List Char) → List (List Char) → Ordering
  | [], [] => .eq
  | [], _ :: _ => .lt
  | _ :: _, [] => .gt
  | a :: as, b :: bs =>
    match buildIdCmp a b with
    | .eq => buildIdsCmp as bs
    | o => o

/-- The `semver` total order on build metadata: absence sorts first. -/
def buildCmp (a b : List (List Char)) : Ordering :=
  match a, b with
  | [], [] => .eq
  | [], _ :: _ => .lt
  | _ :: _, [] => .gt
  | _, _ => buildIdsCmp a b

/-- The `semver` crate's total order on versions: major, minor, patch,
pre-release precedence, then build metadata as the final tie-breaker. -/
def versionCmp (a b : Version) : Ordering :=
  match compare a.major b.major with
  | .eq =>
    match compare a.minor b.minor with
    | .eq =>
      match compare a.patch b.patch with
      | .eq =>
        match preCmp a.pre b.pre with
        | .eq => buildCmp a.build b.build
        | o => o
      | o => o
    | o => o
  | o => o

/-- Strict `>`’s mirror: `versionLt a b` is the code's `b > a`. -/
def versionLt (a b : Version) : Bool := versionCmp a b == .lt

/-! ## Semantic-version parsing (`semver::Version::parse`) -/

/-- Parse a numeric version component / identifier: nonempty, all digits,
no leading zero unless it is exactly `0`. -/
def parseNumericId (s : List Char) : Option ℕ :=
  if s.isEmpty then none
  else if !s.all Char.isDigit then none
  else if 1 < s.length && s.head? == some '0' then none
  else some (s.foldl (fun n c => 10 * n + (c.toNat - 48)) 0)

/-- Valid identifier character: ASCII alphanumeric or hyphen. -/
def idChar (c : Char) : Bool := c.isAlphanum || c == '-'

/-- Parse one pre-release identifier. -/
def parsePreId (s : List Char) : Option PreId :=
  if s.isEmpty then none
  else if !s.all idChar then none
  else if s.all Char.isDigit then
    if 1 < s.length && s.head? == some '0' then none
    else some (.num (s.foldl (fun n c => 10 * n + (c.toNat - 48)) 0))
  else some (.alpha s)

/-- Parse one build-metadata identifier (leading zeros allowed). -/
def parseBuildId (s : List Char) : Option (List Char) :=
  if !s.isEmpty && s.all idChar then some s else none

/-- Rust `semver::Version::parse`: `major.minor.patch` with optional
`-prerelease` and `+build` suffixes, each a dot-separated identifier
list validated as above. -/
def versionParse (s : List Char) : Option Version :=
  let pb := splitFirst '+' s
  let cp := splitFirst '-' pb.1
  match splitOnC '.' cp.1 with
  | [ma, mi, pa] =>
    match parseNumericId ma, parseNumericId mi, parseNumericId pa with
    | some major, some minor, some patch =>
      let pre? : Option (List PreId) :=
        match cp.2 with
        | none => some []
        | some pr => (splitOnC '.' pr).mapM parsePreId
      let build? : Option (List (List Char)) :=
        match pb.2 with
        | none => some []
        | some b => (splitOnC '.' b).mapM parseBuildId
      match pre?, build? with
      | some pre, some build => some ⟨major, minor, patch, pre, build⟩
      | _, _ => none
    | _, _, _ => none
  | _ => none

/-- The code's tag parsing: `tag_name.trim_start_matches('v')` followed by
`Version::parse` (all leading `v` characters are removed). -/
def parseTag (tag : String) : Option Version :=
  versionParse (tag.data.dropWhile (fun c => c == 'v'))

example : parseTag "v2.0.0" = some ⟨2, 0, 0, [], []⟩ := by decide
example : parseTag "vv1.2.3" = some ⟨1, 2, 3, [], []⟩ := by decide
example : parseTag "v1.2" = none := by decide
example : versionLt ⟨1, 5, 0, [], []⟩ ⟨2, 0, 0, [], []⟩ = true := by decide
example : versionLt ⟨1, 0, 0, [], []⟩ ⟨1, 0, 0, [], []⟩ = false := by decide

/-! ## IEEE-754 comparisons and `f32::clamp`, as far as `StateProgress`
needs them: values are exact (0.0, 1.0 and the clamped input are
exactly representable, so no rounding enters), but NaN and the
infinities keep their comparison semantics. -/

/-- An `f32` value as the progress code can observe it: NaN, the two
infinities, or a finite value (represented exactly as a rational). -/
inductive F32 where
  | nan
  | negInf
  | fin (q : ℚ)
  | posInf
deriving DecidableEq, Repr

/-- Rust `<` on floats: any comparison with NaN is false. -/
def F32.blt : F32 → F32 → Bool
  | .nan, _ => false
  | _, .nan => false
  | .negInf, .negInf => false
  | .negInf, _ => true
  | .fin _, .negInf => false
  | .fin a, .fin b => a < b
  | .fin _, .posInf => true
  | .posInf, _ => false

/-- Rust `f32::clamp(self, min, max)`: `if self < min { min }` then
`if x > max { max }`; a NaN input passes both tests unchanged. -/
def F32.clamp (x lo hi : F32) : F32 :=
  let x1 := if F32.blt x lo then lo else x
  if F32.blt hi x1 then hi else x1

/-- The four progress phases (`State` in the source). -/
inductive State where
  | Downloading
  | Extracting
  | Installing
  | Updating
deriving DecidableEq, Repr

/-- A progress event (`StateProgress` in the source). -/
structure StateProgress where
  state : State
  progress : F32
deriving DecidableEq, Repr

/-- Constructor `StateProgress::new`: stores `progress.clamp(0.0, 1.0)`. -/
def StateProgress.new (state : State) (progress : F32) : StateProgress :=
  ⟨state, F32.clamp progress (.fin 0) (.fin 1)⟩

/-- Membership of an `f32` value in the closed interval [0,1]. -/
def inUnit : F32 → Bool
  | .fin q => decide (0 ≤ q ∧ q ≤ 1)
  | _ => false

/-! ## Architecture detection patterns -/

/-- The six supported platform variants. -/
inductive Architecture where
  | WindowsX64
  | WindowsArm64
  | LinuxX64
  | LinuxArm64
  | MacOSX64
  | MacOSArm64
deriving DecidableEq, Repr

/-- Rust `Architecture::asset_patterns`: the per-platform lowercase substrings
matched against asset names. -/
def Architecture.asset_patterns : Architecture → List String
  | .WindowsX64 => ["windows", "win", "x64", "x86_64", "amd64"]
  | .WindowsArm64 => ["windows", "win", "arm64", "aarch64"]
  | .LinuxX64 => ["linux", "x64", "x86_64", "amd64"]
  | .LinuxArm64 => ["linux", "arm64", "aarch64"]
  | .MacOSX64 => ["macos", "darwin", "x64", "x86_64"]
  | .MacOSArm64 => ["macos", "darwin", "arm64", "aarch64"]

/-! ## Release data model -/

/-- Struct `GitHubAsset`: one downloadable file of a release. -/
structure GitHubAsset where
  name : String
  browser_download_url : String
  size : ℕ
deriving DecidableEq, Repr

/-- Struct `GitHubRelease`: a published release with its ordered asset list. -/
structure GitHubRelease where
  tag_name : String
  name : String
  prerelease : Bool
  assets : List GitHubAsset
deriving DecidableEq, Repr

/-- Struct `InstallationConfig`: the immutable caller-supplied configuration. -/
structure InstallationConfig where
  install_path : String
  github_repo : String
  service_name : String
  service_display_name : Option String
  service_description : Option String
  binary_name : Option String
  registry_path : Option String
  version_file_dir : Option String
  working_directory : Option String
deriving DecidableEq, Repr

/-- The error kinds the core can return (each `anyhow::bail!` /
`context` site mapped to its kind from §7 of the specification). -/
inductive Err where
  | networkError
  | noReleaseFound
  | versionParseError
  | noMatchingAsset
  | unsupportedArchiveFormat
  | ioError
  | serviceControlError
  | notInstalledError
  | unsupportedPlatform
deriving DecidableEq, Repr

/-- The environment: the outcome of every fallible external step an
operation performs, in the order the orchestration consults them.
`installed_version` is the per-OS `get_installed_version` result from
the `win`/`nix` ServiceController modules (absent value = no marker);
the service-control and filesystem fields likewise abstract those
calls' success or failure. -/
structure Env where
  releases : Except Err (List GitHubRelease)
  installed_version : Except Err (Option Version)
  arch : Except Err Architecture
  create_temp_dir : Except Err Unit
  download : Except Err Unit
  extract : Except Err Unit
  install_service : Except Err Unit
  stop_service : Except Err Unit
  start_service : Except Err Unit
  uninstall_service : Except Err Unit
  install_path_exists : Bool
  remove_install_dir : Except Err Unit
  remove_download : Except Err Unit

/-- The `InstallationManager` mutable state (the broadcast sender is
elided: progress events do not feed back into the state). -/
structure InstallationManager where
  is_installed : Bool
  current_version : Option Version
  latest_version : Option Version
  config : InstallationConfig
deriving DecidableEq, Repr

/-- Constructor `InstallationManager::new`. -/
def InstallationManager.new (config : InstallationConfig) : InstallationManager :=
  ⟨false, none, none, config⟩

/-- Method `get_latest_release`: first fetched release passing the prerelease
filter; its tag is parsed (leading `v`s stripped) and recorded as
`latest_version` before the release is returned. -/
def InstallationManager.get_latest_release (env : Env) (include_prerelease : Bool)
    (st : InstallationManager) : InstallationManager × Except Err GitHubRelease :=
  match env.releases with
  | .error e => (st, .error e)
  | .ok releases =>
    match releases.find? (fun r => include_prerelease || !r.prerelease) with
    | none => (st, .error .noReleaseFound)
    | some latest =>
      match parseTag latest.tag_name with
      | none => (st, .error .versionParseError)
      | some v => ({ st with latest_version := some v }, .ok latest)

/-- Method `check_for_updates`: latest release's parsed version against the
ServiceController's reported installed version; `is_installed` is set
from presence of that version, and the result is `latest > current`
(true when no current version is recorded). -/
def InstallationManager.check_for_updates (env : Env) (include_prerelease : Bool)
    (st : InstallationManager) : InstallationManager × Except Err Bool :=
  match InstallationManager.get_latest_release env include_prerelease st with
  | (st1, .error e) => (st1, .error e)
  | (st1, .ok latest) =>
    match parseTag latest.tag_name with
    | none => (st1, .error .versionParseError)
    | some latestVersion =>
      match env.installed_version with
      | .error e => (st1, .error e)
      | .ok cur =>
        ({ st1 with current_version := cur, is_installed := cur.isSome },
         .ok (match cur with
              | some current => versionLt current latestVersion
              | none => true))

/-- Pattern match count of one asset name, after lowercasing. -/
def matchCount (patterns : List String) (name : String) : ℕ :=
  (patterns.filter (fun p => containsSub (lowerChars name) p.data)).length

/-- Method `select_asset`: first asset matching at least two architecture
patterns, else first asset matching any pattern, else `NoMatchingAsset`. -/
def InstallationManager.select_asset (env : Env) (release : GitHubRelease) :
    Except Err GitHubAsset :=
  match env.arch with
  | .error e => .error e
  | .ok arch =>
    let patterns := arch.asset_patterns
    match release.assets.find? (fun a => 2 ≤ matchCount patterns a.name) with
    | some a => .ok a
    | none =>
      match release.assets.find?
          (fun a => patterns.any (fun p => containsSub (lowerChars a.name) p.data)) with
      | some a => .ok a
      | none => .error .noMatchingAsset

/-- Method `install`: latest release, asset selection, temp dir, download,
extraction, service installation, then (and only then) the in-memory
`current_version`/`is_installed` update, and finally removal of the
downloaded archive. The state returned with an error is the state at
the point of failure, as with the Rust method's partial mutation. -/
def InstallationManager.install (env : Env) (include_prerelease : Bool)
    (st : InstallationManager) : InstallationManager × Except Err Unit :=
  match InstallationManager.get_latest_release env include_prerelease st with
  | (st1, .error e) => (st1, .error e)
  | (st1, .ok release) =>
    match InstallationManager.select_asset env release with
    | .error e => (st1, .error e)
    | .ok _asset =>
      match env.create_temp_dir with
      | .error e => (st1, .error e)
      | .ok _ =>
        match env.download with
        | .error e => (st1, .error e)
        | .ok _ =>
          match env.extract with
          | .error e => (st1, .error e)
          | .ok _ =>
            match env.install_service with
            | .error e => (st1, .error e)
            | .ok _ =>
              match parseTag release.tag_name with
              | none => (st1, .error .versionParseError)
              | some v =>
                match env.remove_download with
                | .error e =>
                  ({ st1 with current_version := some v, is_installed := true }, .error e)
                | .ok _ =>
                  ({ st1 with current_version := some v, is_installed := true }, .ok ())

/-- Method `update`: requires `is_installed`; re-runs `check_for_updates`,
returns successfully when no update is available, otherwise stops the
service, runs the full install flow, and restarts the service. -/
def InstallationManager.update (env : Env) (include_prerelease : Bool)
    (st : InstallationManager) : InstallationManager × Except Err Unit :=
  if !st.is_installed then (st, .error .notInstalledError)
  else
    match InstallationManager.check_for_updates env include_prerelease st with
    | (st1, .error e) => (st1, .error e)
    | (st1, .ok hasUpdate) =>
      if !hasUpdate then (st1, .ok ())
      else
        match env.stop_service with
        | .error e => (st1, .error e)
        | .ok _ =>
          match InstallationManager.install env include_prerelease st1 with
          | (st2, .error e) => (st2, .error e)
          | (st2, .ok _) =>
            match env.start_service with
            | .error e => (st2, .error e)
            | .ok _ => (st2, .ok ())

/-- Method `uninstall`: requires `is_installed`; removes the service, removes
the install directory when present, then clears
`is_installed`/`current_version`. -/
def InstallationManager.uninstall (env : Env) (st : InstallationManager) :
    InstallationManager × Except Err Unit :=
  if !st.is_installed then (st, .error .notInstalledError)
  else
    match env.uninstall_service with
    | .error e => (st, .error e)
    | .ok _ =>
      match (if env.install_path_exists then env.remove_install_dir else .ok ()) with
      | .error e => (st, .error e)
      | .ok _ => ({ st with is_installed := false, current_version := none }, .ok ())

/-! ## Zip extraction: path confinement (`extract_zip`) -/

/-- A component of a zip entry's stored path, as `std::path::Path::components`
yields them: a root / drive prefix, `.`, `..`, or a normal name. -/
inductive PathComp where
  | rootC
  | curC
  | parentC
  | normalC (s : String)
deriving DecidableEq, Repr

/-- The zip crate's `enclosed_name` depth check: running depth starts at
zero, `..` decrements and fails below zero, a root or prefix component
fails outright. -/
def depthOk : ℕ → List PathComp → Bool
  | _, [] => true
  | _, .rootC :: _ => false
  | d, .curC :: r => depthOk d r
  | 0, .parentC :: _ => false
  | d + 1, .parentC :: r => depthOk d r
  | d, .normalC _ :: r => depthOk (d + 1) r

/-- One zip archive entry: the components of its stored path, whether the
raw name holds a NUL byte, and whether it is a directory entry
(`name().ends_with('/')`). Entry bytes and permission bits do not
affect where anything is created, so they are elided. -/
structure ZipEntry where
  comps : List PathComp
  hasNul : Bool
  isDir : Bool
deriving DecidableEq, Repr

/-- Test `ZipFile::enclosed_name`, as the zip crate documents and implements
it: no NUL byte and the depth check above. -/
def enclosedOk (e : ZipEntry) : Bool := !e.hasNul && depthOk 0 e.comps

/-- Where the operating system materializes `extract_to.join(path)`:
`..` removes the last component (escaping above an empty base is an
escape), `.` is a no-op, an absolute path would leave the base. -/
def resolveFrom (base : List String) : List PathComp → Option (List String)
  | [] => some base
  | .rootC :: _ => none
  | .curC :: r => resolveFrom base r
  | .parentC :: r =>
    if base = [] then none else resolveFrom base.dropLast r
  | .normalC s :: r => resolveFrom (base ++ [s]) r

/-- Method `extract_zip` as a function from the archive's entries to the list of
resolved filesystem paths it creates (file or directory per entry):
an entry whose `enclosed_name` is `None` is skipped via `continue`. -/
def extract_zip (target : List String) (entries : List ZipEntry) : List (List String) :=
  entries.filterMap (fun e => if enclosedOk e then resolveFrom target e.comps else none)

/-! ## Download progress (`download_asset`) -/

/-- The fixed read-buffer size (`[0u8; 8192]`). -/
def downloadBufSize : ℕ := 8192

/-- Helper `broadcast_progress`: every emitted event goes through
`StateProgress::new` and is therefore clamped. -/
def mkProgress (s : State) (q : ℚ) : StateProgress := StateProgress.new s (.fin q)

/-- The read loop of `download_asset`: each successful chunk is appended
to the file; when the declared total size is nonzero an event with the
running ratio is emitted after the chunk. -/
def downloadLoop (totalSize : ℕ) (downloaded : ℕ) :
    List (List ℕ) → List ℕ × List StateProgress
  | [] => ([], [])
  | c :: rest =>
    let d := downloaded + c.length
    let evs := if 0 < totalSize then
        [mkProgress .Downloading ((d : ℚ) / (totalSize : ℚ))] else []
    let r := downloadLoop totalSize d rest
    (c ++ r.1, evs ++ r.2)

/-- Method `download_asset` on a successful transfer whose body arrives as the
given chunk sequence: the written file bytes and the emitted
Downloading events (a 0.0 event before the loop, the per-chunk events,
and an unconditional final 1.0 event). -/
def download_asset (totalSize : ℕ) (chunks : List (List ℕ)) :
    List ℕ × List StateProgress :=
  let r := downloadLoop totalSize 0 chunks
  (r.1, mkProgress .Downloading 0 :: r.2 ++ [mkProgress .Downloading 1])

/-- Cumulative byte counts after each chunk, starting from `acc`. -/
def prefixSums (acc : ℕ) : List (List ℕ) → List ℕ
  | [] => []
  | c :: rest => (acc + c.length) :: prefixSums (acc + c.length) rest

example : extract_zip ["opt", "app"]
    [⟨[.parentC, .parentC, .normalC "evil.txt"], false, false⟩] = [] := by decide
example : extract_zip ["opt", "app"] [⟨[.normalC "bin"], false, false⟩]
    = [["opt", "app", "bin"]] := by decide
example : (download_asset 0 [[1, 2]]).2
    = [mkProgress .Downloading 0, mkProgress .Downloading 1] := by decide

/-! ## Helper lemmas -/

/-- A `find?` call returning `some a` splits the list at the first hit. -/
theorem find_first {α : Type} (p : α → Bool) :
    ∀ (l : List α) (a : α), l.find? p = some a →
      ∃ l1 l2, l = l1 ++ a :: l2 ∧ (∀ b ∈ l1, p b = false) ∧ p a = true := by
  intro l
  induction l with
  | nil => intro a h; simp [List.find?] at h
  | cons c t ih =>
    intro a h
    by_cases hc : p c = true
    · rw [List.find?_cons_of_pos _ hc] at h
      obtain rfl : c = a := by injection h
      exact ⟨[], t, rfl, by simp, hc⟩
    · rw [List.find?_cons_of_neg _ hc] at h
      obtain ⟨l1, l2, rfl, h1, h2⟩ := ih a h
      refine ⟨c :: l1, l2, rfl, ?_, h2⟩
      intro b hb
      rcases List.mem_cons.mp hb with rfl | hb
      · exact Bool.not_eq_true _ ▸ by simpa using hc
      · exact h1 b hb

/-- Depth-checked entry paths resolve below the join base: strengthened
statement for induction, with the spare depth realized as a suffix. -/
theorem resolve_safe :
    ∀ (comps : List PathComp) (base0 extra : List String),
      depthOk extra.length comps = true →
      ∃ final, resolveFrom (base0 ++ extra) comps = some final ∧ base0 <+: final := by
  intro comps
  induction comps with
  | nil =>
    intro base0 extra _
    exact ⟨base0 ++ extra, rfl, ⟨extra, rfl⟩⟩
  | cons c rest ih =>
    intro base0 extra h
    cases c with
    | rootC => simp [depthOk] at h
    | curC =>
      simp only [depthOk] at h
      simpa [resolveFrom] using ih base0 extra h
    | parentC =>
      cases extra with
      | nil => simp [depthOk] at h
      | cons e es =>
        simp only [List.length_cons, depthOk] at h
        have hne : base0 ++ e :: es ≠ [] := by simp
        have hlen : ((e :: es).dropLast).length = es.length := by
          simp [List.length_dropLast]
        obtain ⟨final, hres, hpre⟩ := ih base0 ((e :: es).dropLast) (hlen ▸ h)
        refine ⟨final, ?_, hpre⟩
        simpa [resolveFrom, hne, List.dropLast_append_cons] using hres
    | normalC s =>
      simp only [depthOk] at h
      have h' : depthOk (extra ++ [s]).length rest = true := by
        simpa [List.length_append] using h
      obtain ⟨final, hres, hpre⟩ := ih base0 (extra ++ [s]) h'
      refine ⟨final, ?_, hpre⟩
      simpa [resolveFrom, List.append_assoc] using hres

/-- A nonzero match count is the same as some pattern matching. -/
theorem matchCount_pos_iff (patterns : List String) (name : String) :
    (patterns.any (fun p => containsSub (lowerChars name) p.data) = true)
      ↔ 1 ≤ matchCount patterns name := by
  unfold matchCount
  rw [List.any_eq_true]
  constructor
  · rintro ⟨p, hp, hc⟩
    exact List.length_pos_of_mem (List.mem_filter.mpr ⟨hp, hc⟩)
  · intro h
    have hne : patterns.filter (fun p => containsSub (lowerChars name) p.data) ≠ [] := by
      intro he
      rw [he] at h
      simp at h
    obtain ⟨p, hp⟩ := List.exists_mem_of_ne_nil _ hne
    obtain ⟨h1, h2⟩ := List.mem_filter.mp hp
    exact ⟨p, h1, h2⟩

/-! ## C3: zip extraction is confined to the target directory -/

/-- C3: every path `extract_zip` creates lies under the target directory
(the target's components are a prefix of the resolved path), and an
entry whose stored path is `../../evil.txt` is skipped, producing no
path at all. -/
theorem extract_zip_confined :
    (∀ (target : List String) (entries : List ZipEntry) (p : List String),
        p ∈ extract_zip target entries → target <+: p) ∧
    (∀ target : List String,
        extract_zip target [⟨[.parentC, .parentC, .normalC "evil.txt"], false, false⟩] = []) := by
  constructor
  · intro target entries p hp
    rw [extract_zip, List.mem_filterMap] at hp
    obtain ⟨e, _, hfe⟩ := hp
    split at hfe
    · rename_i hok
      have hd : depthOk 0 e.comps = true := by
        have := hok
        unfold enclosedOk at this
        exact (Bool.and_eq_true _ _).mp this |>.2
      obtain ⟨final, hres, hpre⟩ :=
        resolve_safe e.comps target [] (by simpa using hd)
      rw [List.append_nil] at hres
      rw [hfe] at hres
      obtain rfl : p = final := by injection hres
      exact hpre
    · exact absurd hfe (by simp)
  · intro target
    rfl

/-- Witness for C3 at a concrete archive: a safe entry `bin` extracted
into `opt/app` lands at `opt/app/bin`, under the target. -/
theorem extract_zip_confined_witness :
    (["opt", "app", "bin"] ∈
        extract_zip ["opt", "app"] [⟨[.normalC "bin"], false, false⟩]) ∧
    ["opt", "app"] <+: ["opt", "app", "bin"] :=
  ⟨by decide,
   extract_zip_confined.1 ["opt", "app"] [⟨[.normalC "bin"], false, false⟩]
     ["opt", "app", "bin"] (by decide)⟩

/-! ## C4: progress clamping -/

/-- C4 (amended): for every non-NaN float input the stored progress lies
in [0,1]; finite inputs below 0 are stored as 0 and above 1 as 1. -/
theorem progress_clamped (s : State) (x : F32) (h : x ≠ F32.nan) :
    inUnit (StateProgress.new s x).progress = true ∧
    (∀ q : ℚ, x = .fin q → q < 0 → (StateProgress.new s x).progress = .fin 0) ∧
    (∀ q : ℚ, x = .fin q → 1 < q → (StateProgress.new s x).progress = .fin 1) := by
  cases x with
  | nan => exact absurd rfl h
  | negInf =>
    refine ⟨rfl, ?_, ?_⟩ <;> intro q hq <;> simp at hq
  | posInf =>
    refine ⟨rfl, ?_, ?_⟩ <;> intro q hq <;> simp at hq
  | fin q =>
    refine ⟨?_, ?_, ?_⟩
    · by_cases h0 : q < 0
      · norm_num [StateProgress.new, F32.clamp, F32.blt, h0, inUnit]
      · by_cases h1 : (1 : ℚ) < q
        · norm_num [StateProgress.new, F32.clamp, F32.blt, h0, h1, inUnit]
        · have hq0 : (0 : ℚ) ≤ q := le_of_not_lt h0
          have hq1 : q ≤ 1 := le_of_not_lt h1
          norm_num [StateProgress.new, F32.clamp, F32.blt, h0, h1, hq0, hq1, inUnit]
    · intro q' hq' hlt
      obtain rfl : q = q' := by injection hq'
      norm_num [StateProgress.new, F32.clamp, F32.blt, hlt]
    · intro q' hq' hgt
      obtain rfl : q = q' := by injection hq'
      have h0 : ¬ q < 0 := by linarith
      norm_num [StateProgress.new, F32.clamp, F32.blt, h0, hgt]

/-- Witness for C4 at a finite out-of-range input. -/
theorem progress_clamped_witness :
    (F32.fin 2 ≠ F32.nan) ∧
    inUnit (StateProgress.new .Downloading (.fin 2)).progress = true :=
  ⟨by decide, (progress_clamped .Downloading (.fin 2) (by decide)).1⟩

/-- C4 counterexample: a NaN input is stored as NaN, outside [0,1], so
the claim's "for every f32 input" fails. -/
theorem progress_nan_counterexample :
    (StateProgress.new .Downloading F32.nan).progress = F32.nan ∧
    inUnit (StateProgress.new .Downloading F32.nan).progress = false :=
  ⟨rfl, rfl⟩

/-! ## C7 / C9: the not-installed guard -/

/-- C7: with `is_installed` false, both `update` and `uninstall` fail
with the NotInstalledError and leave the whole state unchanged. -/
theorem update_uninstall_require_installed :
    ∀ (env : Env) (include_prerelease : Bool) (st : InstallationManager),
      st.is_installed = false →
      InstallationManager.update env include_prerelease st
        = (st, .error .notInstalledError) ∧
      InstallationManager.uninstall env st = (st, .error .notInstalledError) := by
  intro env ip st h
  constructor
  · simp [InstallationManager.update, h]
  · simp [InstallationManager.uninstall, h]

/-- Shared concrete configuration for witnesses. -/
def cfg0 : InstallationConfig :=
  ⟨"/opt/myapp", "owner/repo", "myapp", none, none, none, none, none, none⟩

/-- An environment in which every external step succeeds and nothing is
installed. -/
def env0 : Env :=
  ⟨.ok [], .ok none, .ok .LinuxX64, .ok (), .ok (), .ok (), .ok (), .ok (),
   .ok (), .ok (), true, .ok (), .ok ()⟩

/-- Witness for C7 on a freshly constructed manager. -/
theorem update_uninstall_require_installed_witness :
    (InstallationManager.new cfg0).is_installed = false ∧
    InstallationManager.update env0 false (InstallationManager.new cfg0)
      = (InstallationManager.new cfg0, .error .notInstalledError) :=
  ⟨rfl, (update_uninstall_require_installed env0 false _ rfl).1⟩

/-- C9: a freshly constructed manager records no installation and no
versions, so `update` and `uninstall` on it always fail with the
NotInstalledError, whatever the configuration and whatever the
environment (in particular whatever version the platform would
report as installed). -/
theorem fresh_manager_guard :
    ∀ (cfg : InstallationConfig) (env : Env) (include_prerelease : Bool),
      (InstallationManager.new cfg).is_installed = false ∧
      (InstallationManager.new cfg).current_version = none ∧
      (InstallationManager.new cfg).latest_version = none ∧
      InstallationManager.update env include_prerelease (InstallationManager.new cfg)
        = (InstallationManager.new cfg, .error .notInstalledError) ∧
      InstallationManager.uninstall env (InstallationManager.new cfg)
        = (InstallationManager.new cfg, .error .notInstalledError) := by
  intro cfg env ip
  refine ⟨rfl, rfl, rfl, ?_, ?_⟩
  · simp [InstallationManager.update, InstallationManager.new]
  · simp [InstallationManager.uninstall, InstallationManager.new]

/-! ## C8: the is-installed / current-version invariant -/

/-- The state invariant: `is_installed` is set exactly when a current
version is recorded. -/
def managerInv (st : InstallationManager) : Prop :=
  st.is_installed = st.current_version.isSome

theorem inv_get_latest_release (env : Env) (ip : Bool) (st : InstallationManager)
    (h : managerInv st) :
    managerInv (InstallationManager.get_latest_release env ip st).1 := by
  unfold InstallationManager.get_latest_release
  split
  · exact h
  · split
    · exact h
    · split
      · exact h
      · exact h

theorem inv_check_for_updates (env : Env) (ip : Bool) (st : InstallationManager)
    (h : managerInv st) :
    managerInv (InstallationManager.check_for_updates env ip st).1 := by
  unfold InstallationManager.check_for_updates
  split
  · rename_i st1 e heq
    have h1 := inv_get_latest_release env ip st h
    rw [heq] at h1
    exact h1
  · rename_i st1 latest heq
    have h1 := inv_get_latest_release env ip st h
    rw [heq] at h1
    split
    · exact h1
    · split
      · exact h1
      · rfl

theorem inv_install (env : Env) (ip : Bool) (st : InstallationManager)
    (h : managerInv st) :
    managerInv (InstallationManager.install env ip st).1 := by
  unfold InstallationManager.install
  split
  · rename_i st1 e heq
    have h1 := inv_get_latest_release env ip st h
    rw [heq] at h1
    exact h1
  · rename_i st1 release heq
    have h1 := inv_get_latest_release env ip st h
    rw [heq] at h1
    split
    · exact h1
    · split
      · exact h1
      · split
        · exact h1
        · split
          · exact h1
          · split
            · exact h1
            · split
              · exact h1
              · split
                · rfl
                · rfl

theorem inv_update (env : Env) (ip : Bool) (st : InstallationManager)
    (h : managerInv st) :
    managerInv (InstallationManager.update env ip st).1 := by
  unfold InstallationManager.update
  split
  · exact h
  · split
    · rename_i st1 e heq
      have h1 := inv_check_for_updates env ip st h
      rw [heq] at h1
      exact h1
    · rename_i st1 hasUpdate heq
      have h1 := inv_check_for_updates env ip st h
      rw [heq] at h1
      split
      · exact h1
      · split
        · exact h1
        · split
          · rename_i st2 e heq2
            have h2 := inv_install env ip st1 h1
            rw [heq2] at h2
            exact h2
          · rename_i st2 u heq2
            have h2 := inv_install env ip st1 h1
            rw [heq2] at h2
            split
            · exact h2
            · exact h2

theorem inv_uninstall (env : Env) (st : InstallationManager) (h : managerInv st) :
    managerInv (InstallationManager.uninstall env st).1 := by
  unfold InstallationManager.uninstall
  split
  · exact h
  · split
    · exact h
    · split
      · exact h
      · rfl

/-- C8: the invariant holds after `InstallationManager::new` and is
preserved by every operation, on both success and error returns (the
returned state is the state at the point of return, including partial
mutation before a failure). -/
theorem manager_invariant :
    ∀ (cfg : InstallationConfig) (env : Env) (include_prerelease : Bool)
      (st : InstallationManager),
      managerInv (InstallationManager.new cfg) ∧
      (managerInv st →
        managerInv (InstallationManager.check_for_updates env include_prerelease st).1 ∧
        managerInv (InstallationManager.install env include_prerelease st).1 ∧
        managerInv (InstallationManager.update env include_prerelease st).1 ∧
        managerInv (InstallationManager.uninstall env st).1) :=
  fun _cfg env ip st =>
    ⟨rfl, fun h =>
      ⟨inv_check_for_updates env ip st h, inv_install env ip st h,
       inv_update env ip st h, inv_uninstall env st h⟩⟩

/-- Witness for C8 on a concrete state satisfying the invariant. -/
theorem manager_invariant_witness :
    managerInv (InstallationManager.new cfg0) ∧
    managerInv (InstallationManager.uninstall env0 (InstallationManager.new cfg0)).1 :=
  ⟨rfl, ((manager_invariant cfg0 env0 false (InstallationManager.new cfg0)).2 rfl).2.2.2⟩

/-! ## C1: check_for_updates semantics -/

/-- C1: on a run where the fetch, prerelease filter, tag parse and
installed-version query succeed, `check_for_updates` records the
reported current version, sets `is_installed` to its presence, and
returns true exactly when no current version is recorded or the
latest parsed version strictly exceeds it in semantic-version order. -/
theorem check_for_updates_spec :
    ∀ (env : Env) (include_prerelease : Bool) (st : InstallationManager)
      (rs : List GitHubRelease) (r : GitHubRelease) (v : Version) (cur : Option Version),
      env.releases = .ok rs →
      rs.find? (fun x => include_prerelease || !x.prerelease) = some r →
      parseTag r.tag_name = some v →
      env.installed_version = .ok cur →
      ∃ st2,
        InstallationManager.check_for_updates env include_prerelease st
          = (st2, .ok (match cur with
                       | some current => versionLt current v
                       | none => true)) ∧
        st2.is_installed = cur.isSome ∧
        st2.current_version = cur := by
  intro env ip st rs r v cur hrel hfind hparse hcur
  unfold InstallationManager.check_for_updates InstallationManager.get_latest_release
  rw [hrel]
  simp only [hfind, hparse, hcur]
  refine ⟨_, rfl, ?_, ?_⟩ <;> rfl

/-- A concrete release with tag `v2.0.0`. -/
def relA : GitHubRelease := ⟨"v2.0.0", "Release 2.0.0", false, []⟩

/-- Environment for the C1 witness: one stable release `v2.0.0`, with
installed version 1.5.0 reported by the platform. -/
def envC1 : Env :=
  ⟨.ok [relA], .ok (some ⟨1, 5, 0, [], []⟩), .ok .LinuxX64, .ok (), .ok (),
   .ok (), .ok (), .ok (), .ok (), .ok (), true, .ok (), .ok ()⟩

/-- Witness for C1: latest `v2.0.0` against current `1.5.0` reports an
update and marks the application installed. -/
theorem check_for_updates_spec_witness :
    envC1.releases = .ok [relA] ∧
    [relA].find? (fun x => false || !x.prerelease) = some relA ∧
    parseTag relA.tag_name = some ⟨2, 0, 0, [], []⟩ ∧
    envC1.installed_version = .ok (some ⟨1, 5, 0, [], []⟩) ∧
    ∃ st2,
      InstallationManager.check_for_updates envC1 false (InstallationManager.new cfg0)
        = (st2, .ok true) ∧
      st2.is_installed = true ∧
      st2.current_version = some ⟨1, 5, 0, [], []⟩ := by
  refine ⟨rfl, by decide, by decide, rfl, ?_⟩
  exact check_for_updates_spec envC1 false (InstallationManager.new cfg0) [relA] relA
    ⟨2, 0, 0, [], []⟩ (some ⟨1, 5, 0, [], []⟩) rfl (by decide) (by decide) rfl

/-! ## C5: get_latest_release semantics -/

/-- C5 (amended): with a successful fetch, `get_latest_release` fails
with NoReleaseFound when no descriptor passes the prerelease filter;
when the first qualifying descriptor's tag parses it is returned (and
recorded as the latest version), and when the tag does not parse the
call fails with the version-parse error instead of returning the
descriptor. -/
theorem get_latest_release_spec :
    ∀ (env : Env) (include_prerelease : Bool) (st : InstallationManager)
      (rs : List GitHubRelease),
      env.releases = .ok rs →
      (rs.find? (fun r => include_prerelease || !r.prerelease) = none →
        InstallationManager.get_latest_release env include_prerelease st
          = (st, .error .noReleaseFound)) ∧
      (∀ r, rs.find? (fun r => include_prerelease || !r.prerelease) = some r →
        (parseTag r.tag_name = none →
          InstallationManager.get_latest_release env include_prerelease st
            = (st, .error .versionParseError)) ∧
        (∀ v, parseTag r.tag_name = some v →
          InstallationManager.get_latest_release env include_prerelease st
            = ({ st with latest_version := some v }, .ok r))) := by
  intro env ip st rs hrel
  constructor
  · intro hnone
    unfold InstallationManager.get_latest_release
    rw [hrel]
    simp only [hnone]
  · intro r hfind
    constructor
    · intro hparse
      unfold InstallationManager.get_latest_release
      rw [hrel]
      simp only [hfind, hparse]
    · intro v hparse
      unfold InstallationManager.get_latest_release
      rw [hrel]
      simp only [hfind, hparse]

/-- A release whose tag does not parse as a semantic version. -/
def relBad : GitHubRelease := ⟨"not-semver", "bad tag", false, []⟩

/-- Environment holding only the unparseable release. -/
def envC5 : Env :=
  ⟨.ok [relBad], .ok none, .ok .LinuxX64, .ok (), .ok (), .ok (), .ok (),
   .ok (), .ok (), .ok (), true, .ok (), .ok ()⟩

/-- C5 counterexample: the fetched sequence has a first qualifying
descriptor, yet `get_latest_release` does not return it — it fails
with a version-parse error because the tag is not a semantic version. -/
theorem get_latest_release_counterexample :
    [relBad].find? (fun r => false || !r.prerelease) = some relBad ∧
    InstallationManager.get_latest_release envC5 false (InstallationManager.new cfg0)
      = (InstallationManager.new cfg0, .error .versionParseError) := by
  constructor
  · decide
  · rfl

/-- Witness for C5 on both branches that its hypotheses reach: the
qualifying release `v2.0.0` is returned with the version recorded. -/
theorem get_latest_release_spec_witness :
    envC1.releases = .ok [relA] ∧
    [relA].find? (fun r => false || !r.prerelease) = some relA ∧
    parseTag relA.tag_name = some ⟨2, 0, 0, [], []⟩ ∧
    InstallationManager.get_latest_release envC1 false (InstallationManager.new cfg0)
      = ({ InstallationManager.new cfg0 with latest_version := some ⟨2, 0, 0, [], []⟩ },
         .ok relA) :=
  ⟨rfl, by decide, by decide,
   ((get_latest_release_spec envC1 false (InstallationManager.new cfg0) [relA] rfl).2
       relA (by decide)).2 ⟨2, 0, 0, [], []⟩ (by decide)⟩

/-! ## C10: release-tag version parsing -/

/-- C10: versions are parsed from tags with every leading `v` removed —
`1.2.3`, `v1.2.3` and `vv1.2.3` all parse to version 1.2.3, a tag
whose remainder is not a semantic version parses to nothing, and in
that case `get_latest_release`, `check_for_updates` and `install` all
fail (with the version-parse error). -/
theorem tag_version_parsing :
    parseTag "1.2.3" = some ⟨1, 2, 3, [], []⟩ ∧
    parseTag "v1.2.3" = some ⟨1, 2, 3, [], []⟩ ∧
    parseTag "vv1.2.3" = some ⟨1, 2, 3, [], []⟩ ∧
    parseTag "v1.2" = none ∧
    (∀ tag : String,
      parseTag tag = versionParse (tag.data.dropWhile (fun c => c == 'v'))) ∧
    (∀ (env : Env) (include_prerelease : Bool) (st : InstallationManager)
        (rs : List GitHubRelease) (r : GitHubRelease),
      env.releases = .ok rs →
      rs.find? (fun x => include_prerelease || !x.prerelease) = some r →
      parseTag r.tag_name = none →
      InstallationManager.get_latest_release env include_prerelease st
        = (st, .error .versionParseError) ∧
      (InstallationManager.check_for_updates env include_prerelease st).2
        = .error .versionParseError ∧
      (InstallationManager.install env include_prerelease st).2
        = .error .versionParseError) := by
  refine ⟨by decide, by decide, by decide, by decide, fun tag => rfl, ?_⟩
  intro env ip st rs r hrel hfind hparse
  have hg : InstallationManager.get_latest_release env ip st
      = (st, .error .versionParseError) := by
    unfold InstallationManager.get_latest_release
    rw [hrel]
    simp only [hfind, hparse]
  refine ⟨hg, ?_, ?_⟩
  · unfold InstallationManager.check_for_updates
    rw [hg]
  · unfold InstallationManager.install
    rw [hg]

/-- A release whose tag strips to a non-version remainder. -/
def relC10 : GitHubRelease := ⟨"vnope", "bad", false, []⟩

/-- Environment holding only that release. -/
def envC10 : Env :=
  ⟨.ok [relC10], .ok none, .ok .LinuxX64, .ok (), .ok (), .ok (), .ok (),
   .ok (), .ok (), .ok (), true, .ok (), .ok ()⟩

/-- Witness for C10's conditional part at the concrete tag `vnope`. -/
theorem tag_version_parsing_witness :
    envC10.releases = .ok [relC10] ∧
    [relC10].find? (fun x => false || !x.prerelease) = some relC10 ∧
    parseTag relC10.tag_name = none ∧
    InstallationManager.get_latest_release envC10 false (InstallationManager.new cfg0)
      = (InstallationManager.new cfg0, .error .versionParseError) :=
  ⟨rfl, by decide, by decide,
   (tag_version_parsing.2.2.2.2.2 envC10 false (InstallationManager.new cfg0)
       [relC10] relC10 rfl (by decide) (by decide)).1⟩

/-! ## C2: asset selection -/

/-- C2: a selected asset is the first (in listed order) with match count
at least 2, or — when no asset reaches 2 — the first with match count
at least 1; selection fails with NoMatchingAsset exactly when no asset
matches any pattern. -/
theorem select_asset_spec :
    ∀ (env : Env) (arch : Architecture) (release : GitHubRelease),
      env.arch = .ok arch →
      (∀ a, InstallationManager.select_asset env release = .ok a →
        ∃ l1 l2, release.assets = l1 ++ a :: l2 ∧
          ((2 ≤ matchCount arch.asset_patterns a.name ∧
              ∀ b ∈ l1, matchCount arch.asset_patterns b.name < 2) ∨
            (1 ≤ matchCount arch.asset_patterns a.name ∧
              (∀ b ∈ release.assets, matchCount arch.asset_patterns b.name < 2) ∧
              ∀ b ∈ l1, matchCount arch.asset_patterns b.name = 0))) ∧
      (InstallationManager.select_asset env release = .error .noMatchingAsset ↔
        ∀ b ∈ release.assets, matchCount arch.asset_patterns b.name = 0) := by
  intro env arch release harch
  have hsel : InstallationManager.select_asset env release =
      (match release.assets.find?
          (fun a => 2 ≤ matchCount arch.asset_patterns a.name) with
       | some a => .ok a
       | none =>
         match release.assets.find?
             (fun a => arch.asset_patterns.any
               (fun p => containsSub (lowerChars a.name) p.data)) with
         | some a => .ok a
         | none => .error .noMatchingAsset) := by
    unfold InstallationManager.select_asset
    rw [harch]
  cases h2 : release.assets.find?
      (fun a => 2 ≤ matchCount arch.asset_patterns a.name) with
  | some a0 =>
    rw [h2] at hsel
    obtain ⟨l1, l2, heq, hfail, hpass⟩ := find_first _ _ _ h2
    have ha0 : 2 ≤ matchCount arch.asset_patterns a0.name := of_decide_eq_true hpass
    constructor
    · intro a ha
      rw [hsel] at ha
      obtain rfl : a0 = a := by injection ha
      refine ⟨l1, l2, heq, .inl ⟨ha0, ?_⟩⟩
      intro b hb
      exact Nat.not_le.mp (of_decide_eq_false (hfail b hb))
    · rw [hsel]
      constructor
      · intro hcontra
        exact absurd hcontra (by simp)
      · intro hall
        exfalso
        have hmem : a0 ∈ release.assets := by
          rw [heq]
          exact List.mem_append.mpr (Or.inr (List.mem_cons_self _ _))
        rw [hall a0 hmem] at ha0
        exact absurd ha0 (by norm_num)
  | none =>
    rw [h2] at hsel
    have hall2 : ∀ b ∈ release.assets, matchCount arch.asset_patterns b.name < 2 := by
      intro b hb
      have := List.find?_eq_none.mp h2 b hb
      exact Nat.not_le.mp (fun hle => this (decide_eq_true hle))
    cases h1 : release.assets.find?
        (fun a => arch.asset_patterns.any
          (fun p => containsSub (lowerChars a.name) p.data)) with
    | some a0 =>
      rw [h1] at hsel
      obtain ⟨l1, l2, heq, hfail, hpass⟩ := find_first _ _ _ h1
      have ha0 : 1 ≤ matchCount arch.asset_patterns a0.name :=
        (matchCount_pos_iff _ _).mp hpass
      constructor
      · intro a ha
        rw [hsel] at ha
        obtain rfl : a0 = a := by injection ha
        refine ⟨l1, l2, heq, .inr ⟨ha0, hall2, ?_⟩⟩
        intro b hb
        have hb0 : ¬ 1 ≤ matchCount arch.asset_patterns b.name := by
          intro hge
          have := (matchCount_pos_iff arch.asset_patterns b.name).mpr hge
          rw [hfail b hb] at this
          exact absurd this (by simp)
        exact Nat.eq_zero_of_not_pos hb0
      · rw [hsel]
        constructor
        · intro hcontra
          exact absurd hcontra (by simp)
        · intro hall
          exfalso
          have hmem : a0 ∈ release.assets := by
            rw [heq]
            exact List.mem_append.mpr (Or.inr (List.mem_cons_self _ _))
          rw [hall a0 hmem] at ha0
          exact absurd ha0 (by norm_num)
    | none =>
      rw [h1] at hsel
      constructor
      · intro a ha
        rw [hsel] at ha
        exact absurd ha (by simp)
      · rw [hsel]
        constructor
        · intro _ b hb
          have := List.find?_eq_none.mp h1 b hb
          have hb0 : ¬ 1 ≤ matchCount arch.asset_patterns b.name := by
            intro hge
            exact this ((matchCount_pos_iff arch.asset_patterns b.name).mpr hge)
          exact Nat.eq_zero_of_not_pos hb0
        · intro _
          rfl

/-- The spec's positive selection example. -/
def relWin : GitHubRelease :=
  ⟨"v1.0.0", "Release", false,
   [⟨"app-windows-x64.zip", "u1", 1024⟩, ⟨"app-linux-arm64.tar.gz", "u2", 1024⟩]⟩

/-- The spec's negative selection example. -/
def relMac : GitHubRelease :=
  ⟨"v1.0.0", "Release", false, [⟨"app-macos-arm64.zip", "u3", 1024⟩]⟩

/-- Environment whose detected architecture is WindowsX64. -/
def envWin : Env :=
  ⟨.ok [], .ok none, .ok .WindowsX64, .ok (), .ok (), .ok (), .ok (), .ok (),
   .ok (), .ok (), true, .ok (), .ok ()⟩

/-- Witness for C2: on WindowsX64 the windows-x64 asset is selected first,
and the macos-only release fails with NoMatchingAsset. -/
theorem select_asset_spec_witness :
    envWin.arch = .ok .WindowsX64 ∧
    InstallationManager.select_asset envWin relWin
      = .ok ⟨"app-windows-x64.zip", "u1", 1024⟩ ∧
    (InstallationManager.select_asset envWin relMac = .error .noMatchingAsset ↔
      ∀ b ∈ relMac.assets, matchCount Architecture.WindowsX64.asset_patterns b.name = 0) :=
  ⟨rfl, rfl, (select_asset_spec envWin .WindowsX64 relMac rfl).2⟩

/-! ## C6: download progress events -/

theorem downloadLoop_bytes (t : ℕ) :
    ∀ (chunks : List (List ℕ)) (d : ℕ),
      (downloadLoop t d chunks).1 = chunks.flatten := by
  intro chunks
  induction chunks with
  | nil => intro d; rfl
  | cons c rest ih => intro d; simp [downloadLoop, ih]

theorem downloadLoop_events_pos (t : ℕ) (ht : 0 < t) :
    ∀ (chunks : List (List ℕ)) (d : ℕ),
      (downloadLoop t d chunks).2
        = (prefixSums d chunks).map
            (fun n => mkProgress .Downloading ((n : ℚ) / (t : ℚ))) := by
  intro chunks
  induction chunks with
  | nil => intro d; rfl
  | cons c rest ih => intro d; simp [downloadLoop, prefixSums, ht, ih]

theorem downloadLoop_events_zero :
    ∀ (chunks : List (List ℕ)) (d : ℕ), (downloadLoop 0 d chunks).2 = [] := by
  intro chunks
  induction chunks with
  | nil => intro d; rfl
  | cons c rest ih => intro d; simp [downloadLoop, ih]

/-- A ratio already inside [0,1] passes through the constructor's clamp
unchanged. -/
theorem mkProgress_in_range {q : ℚ} (h0 : 0 ≤ q) (h1 : q ≤ 1) :
    mkProgress .Downloading q = ⟨.Downloading, .fin q⟩ := by
  have hn : ¬ q < 0 := not_lt.mpr h0
  have hm : ¬ (1 : ℚ) < q := not_lt.mpr h1
  simp [mkProgress, StateProgress.new, F32.clamp, F32.blt, hn, hm]

/-- C6 (amended): on a successful run whose body arrives in nonempty
chunks bounded by the 8 KiB buffer, the file content is the chunk
concatenation; when the declared size is nonzero the Downloading
events are a leading 0, one clamped running-ratio event per chunk,
and a final 1; when the declared size is zero they are exactly the
0-then-1 pair; a per-chunk event carries the exact ratio whenever the
bytes so far do not exceed the declared size; and the last event is
always exactly 1. -/
theorem download_asset_spec :
    ∀ (totalSize : ℕ) (chunks : List (List ℕ)),
      (∀ c ∈ chunks, 0 < c.length ∧ c.length ≤ downloadBufSize) →
      (download_asset totalSize chunks).1 = chunks.flatten ∧
      (0 < totalSize →
        (download_asset totalSize chunks).2
          = mkProgress .Downloading 0 ::
              ((prefixSums 0 chunks).map
                (fun n => mkProgress .Downloading ((n : ℚ) / (totalSize : ℚ)))
               ++ [mkProgress .Downloading 1])) ∧
      (totalSize = 0 →
        (download_asset totalSize chunks).2
          = [mkProgress .Downloading 0, mkProgress .Downloading 1]) ∧
      (∀ n ∈ prefixSums 0 chunks, n ≤ totalSize →
        mkProgress .Downloading ((n : ℚ) / (totalSize : ℚ))
          = ⟨.Downloading, .fin ((n : ℚ) / (totalSize : ℚ))⟩) ∧
      (download_asset totalSize chunks).2.getLast?
        = some (mkProgress .Downloading 1) := by
  intro t chunks _hc
  refine ⟨?_, ?_, ?_, ?_, ?_⟩
  · simp [download_asset, downloadLoop_bytes]
  · intro ht
    simp [download_asset, downloadLoop_events_pos t ht]
  · intro ht
    subst ht
    simp [download_asset, downloadLoop_events_zero]
  · intro n _hn hle
    rcases Nat.eq_zero_or_pos t with h | h
    · subst h
      obtain rfl : n = 0 := Nat.le_zero.mp hle
      rw [show ((0 : ℕ) : ℚ) / ((0 : ℕ) : ℚ) = 0 by norm_num]
      exact mkProgress_in_range le_rfl zero_le_one
    · have htq : (0 : ℚ) < (t : ℚ) := by exact_mod_cast h
      have h0 : (0 : ℚ) ≤ (n : ℚ) / (t : ℚ) :=
        div_nonneg (Nat.cast_nonneg n) (Nat.cast_nonneg t)
      have h1 : (n : ℚ) / (t : ℚ) ≤ 1 := by
        rw [div_le_one htq]
        exact_mod_cast hle
      exact mkProgress_in_range h0 h1
  · have hshape : (download_asset t chunks).2
        = (mkProgress .Downloading 0 :: (downloadLoop t 0 chunks).2)
            ++ [mkProgress .Downloading 1] := by
      simp [download_asset]
    rw [hshape, List.getLast?_concat]

/-- Witness for C6 at a concrete three-byte body. -/
theorem download_asset_spec_witness :
    (∀ c ∈ [[7, 7, 7]], 0 < c.length ∧ c.length ≤ downloadBufSize) ∧
    (download_asset 3 [[7, 7, 7]]).1 = [[7, 7, 7]].flatten :=
  ⟨by decide, (download_asset_spec 3 [[7, 7, 7]] (by decide)).1⟩

/-- C6 counterexample: with declared size 1 and a 2-byte chunk, the event
after the chunk carries 1 (the clamped value), not the claimed ratio
`bytes_so_far / total_size = 2`. -/
theorem download_asset_clamp_counterexample :
    (download_asset 1 [[7, 7]]).2
      = [⟨.Downloading, .fin 0⟩, ⟨.Downloading, .fin 1⟩, ⟨.Downloading, .fin 1⟩] ∧
    ((2 : ℚ) / (1 : ℚ)) ≠ (1 : ℚ) := by
  constructor
  · have h := downloadLoop_events_pos 1 (by norm_num) [[7, 7]] 0
    have hps : prefixSums 0 [[7, 7]] = [2] := rfl
    rw [hps] at h
    simp only [download_asset, h, List.map]
    norm_num [mkProgress, StateProgress.new, F32.clamp, F32.blt]
  · norm_num
